import Mathlib

/-!
Shallow embedding of the wordle-words pipeline (src/parse.py and
src/fetch_wordle_data.py) and proofs about its normalization,
extraction, reconciliation and artifact-building logic.

Strings are modelled by Lean `String` (a list of unicode scalar values),
sets of words by `Finset String`.  Python string primitives used by the
code (`str.strip`, `str.lower`, the regexes `^[a-z]{5}$` and
`\b[a-zA-Z]{5}\b`) are modelled on the ASCII fragment they are applied
to: `\w` (which determines `\b` word boundaries) is modelled as ASCII
alphanumerics plus underscore, and `str.strip`'s whitespace as the ASCII
whitespace characters.
-/

namespace Wordle

/-- ASCII whitespace, the fragment of Python `str.strip`'s whitespace class
relevant here: HT, LF, VT, FF, CR and space. -/
def isSpaceChar (c : Char) : Bool :=
  c.toNat == 32 || (9 ≤ c.toNat && c.toNat ≤ 13)

/-- Membership in the regex class `[a-z]`. -/
def isLowerAlpha (c : Char) : Bool :=
  97 ≤ c.toNat && c.toNat ≤ 122

/-- Membership in the regex class `[A-Z]`. -/
def isUpperAlpha (c : Char) : Bool :=
  65 ≤ c.toNat && c.toNat ≤ 90

/-- Membership in the regex class `[a-zA-Z]`. -/
def isAsciiAlpha (c : Char) : Bool :=
  isUpperAlpha c || isLowerAlpha c

/-- Membership in the regex class `\w` (ASCII fragment: letters, digits,
underscore); `\b` boundaries fall between `\w` and non-`\w` positions. -/
def isWordChar (c : Char) : Bool :=
  isAsciiAlpha c || (48 ≤ c.toNat && c.toNat ≤ 57) || c.toNat == 95

/-- Python `str.strip()`: remove leading and trailing whitespace. -/
def pyStrip (s : String) : String :=
  String.mk (((s.data.dropWhile isSpaceChar).reverse.dropWhile isSpaceChar).reverse)

/-- Python `str.lower()` on the ASCII fragment: `Char.toLower` maps
`A`..`Z` to `a`..`z` and fixes every other character, exactly as Python
does on ASCII input. -/
def pyLower (s : String) : String :=
  String.mk (s.data.map Char.toLower)

/-- The canonicalization applied to each raw token by `normalize_words`:
`(w or "").strip().lower()` (on a string argument, `w or ""` is `w`). -/
def normTok (s : String) : String :=
  pyLower (pyStrip s)

/-- Python `W5.match(w)` for `W5 = re.compile(r"^[a-z]{5}$")`, applied to
an already-stripped string (so the `$`-before-final-newline subtlety
cannot arise): exactly five characters, all in `[a-z]`. -/
def w5Match (s : String) : Bool :=
  s.data.length == 5 && s.data.all isLowerAlpha

/-- src/parse.py `normalize_words`: strip and lowercase each token, keep
those matching `^[a-z]{5}$`, and collect the results into a set. -/
def normalize_words (ws : List String) : Finset String :=
  ((ws.map normTok).filter (fun w => w5Match w)).toFinset

/-- Maximal runs of `\w`-characters of a character list, in order.  A
match of `\b[a-zA-Z]{5}\b` (or `\b[a-z]{5}\b`) is exactly such a maximal
run that consists of five (lowercase) letters: the `\b` on each side
forbids any adjacent word character. -/
def wordRuns : List Char → List (List Char)
  | [] => []
  | [c] => if isWordChar c then [[c]] else []
  | c :: c2 :: cs =>
    let rest := wordRuns (c2 :: cs)
    if isWordChar c then
      if isWordChar c2 then
        match rest with
        | r :: rs => (c :: r) :: rs
        | [] => [[c]]
      else [c] :: rest
    else rest

/-- A maximal word-character run matches the five-letter pattern when it
has length five and every character satisfies `p`. -/
def run5 (p : Char → Bool) (r : List Char) : Bool :=
  r.length == 5 && r.all p

/-- All matches of `re.finditer(r"\b[a-zA-Z]{5}\b", s)`, in order. -/
def find5Tokens (s : String) : List String :=
  ((wordRuns s.data).filter (run5 isAsciiAlpha)).map String.mk

/-- All matches of `re.finditer(r"\b[a-z]{5}\b", s)`, in order (used by
the structural passes, which scan already-lowercased text). -/
def find5lc (s : String) : List String :=
  ((wordRuns s.data).filter (run5 isLowerAlpha)).map String.mk

/-- Python `set.intersection(*used_sets)` on a nonempty argument list:
fold intersection over the remaining sets starting from the first.  On
`[]` (which Python would reject) we return the empty set; `reconcile`
never evaluates it there. -/
def interAll : List (Finset String) → Finset String
  | [] => ∅
  | s :: rest => rest.foldl (fun a b => a ∩ b) s

/-- Python `set().union(*used_sets)`: fold union starting from the empty
set. -/
def unionAll (sets : List (Finset String)) : Finset String :=
  sets.foldl (fun a b => a ∪ b) ∅

/-- The confidence threshold hardcoded in `fetch_used`
(`if len(inter) < 100`). -/
def min_confidence_threshold : Nat := 100

/-- Reconciliation tail of src/fetch_wordle_data.py `fetch_used` (lines
50-59), with the threshold abstracted as a parameter: raise if no source
survived; otherwise take the intersection of all per-source sets (the
first set alone when only one is present) and return it, unless it is
smaller than the threshold, in which case return the union of all sets. -/
def reconcile (sets : List (Finset String)) (t : Nat) : Except String (Finset String) :=
  if sets.isEmpty then Except.error "No used-answers sources could be parsed."
  else
    let inter := if 1 < sets.length then interAll sets else sets.headI
    if inter.card < t then Except.ok (unionAll sets)
    else Except.ok inter

theorem mem_interAll : ∀ (rest : List (Finset String)) (s : Finset String) (x : String),
    (x ∈ interAll (s :: rest) ↔ x ∈ s ∧ ∀ u ∈ rest, x ∈ u)
  | [], s, x => by simp [interAll]
  | u :: rest, s, x => by
    have ih := mem_interAll rest (s ∩ u) x
    simp only [interAll, List.foldl] at ih ⊢
    rw [ih]
    simp [Finset.mem_inter, and_assoc]

theorem mem_foldl_union (l : List (Finset String)) (a : Finset String) (x : String) :
    x ∈ l.foldl (fun a b => a ∪ b) a ↔ x ∈ a ∨ ∃ u ∈ l, x ∈ u := by
  induction l generalizing a with
  | nil => simp
  | cons u l ih =>
    simp only [List.foldl, ih, Finset.mem_union]
    constructor
    · rintro ((h | h) | ⟨v, hv, hx⟩)
      · exact Or.inl h
      · exact Or.inr ⟨u, by simp, h⟩
      · exact Or.inr ⟨v, by simp [hv], hx⟩
    · rintro (h | ⟨v, hv, hx⟩)
      · exact Or.inl (Or.inl h)
      · rcases List.mem_cons.mp hv with rfl | hv
        · exact Or.inl (Or.inr hx)
        · exact Or.inr ⟨v, hv, hx⟩

theorem mem_unionAll (sets : List (Finset String)) (x : String) :
    x ∈ unionAll sets ↔ ∃ u ∈ sets, x ∈ u := by
  simp [unionAll, mem_foldl_union]

theorem mem_normalize_words {s : String} {ws : List String} :
    s ∈ normalize_words ws ↔ ∃ w ∈ ws, normTok w = s ∧ w5Match s = true := by
  simp only [normalize_words, List.mem_toFinset, List.mem_filter, List.mem_map]
  constructor
  · rintro ⟨⟨w, hw, rfl⟩, hm⟩
    exact ⟨w, hw, rfl, hm⟩
  · rintro ⟨w, hw, rfl, hm⟩
    exact ⟨⟨w, hw, rfl⟩, hm⟩

/-- C1: for every sequence of two or more per-source used word sets, the
reconciler returns the intersection of all the sets whenever the
intersection's size is at least the confidence threshold (100 in the
implementation), and returns the union of all the sets whenever the
intersection's size is below the threshold; moreover the intersection
and union are genuinely the pointwise intersection and union of the
input sets. -/
theorem reconcile_threshold_spec (sets : List (Finset String)) (h2 : 2 ≤ sets.length) :
    (min_confidence_threshold ≤ (interAll sets).card →
      reconcile sets min_confidence_threshold = Except.ok (interAll sets)) ∧
    ((interAll sets).card < min_confidence_threshold →
      reconcile sets min_confidence_threshold = Except.ok (unionAll sets)) ∧
    (∀ x, (x ∈ interAll sets ↔ ∀ u ∈ sets, x ∈ u) ∧
          (x ∈ unionAll sets ↔ ∃ u ∈ sets, x ∈ u)) := by
  match sets, h2 with
  | s :: u :: rest, _ =>
    refine ⟨?_, ?_, ?_⟩
    · intro hge
      simp [reconcile, Nat.not_lt.mpr hge]
    · intro hlt
      simp [reconcile, hlt]
    · intro x
      refine ⟨?_, mem_unionAll (s :: u :: rest) x⟩
      rw [mem_interAll (u :: rest) s x]
      simp

theorem reconcile_threshold_spec_witness :
    2 ≤ ([{"apple"}, {"apple", "bread"}] : List (Finset String)).length ∧
    ((min_confidence_threshold ≤ (interAll [{"apple"}, {"apple", "bread"}]).card →
      reconcile [{"apple"}, {"apple", "bread"}] min_confidence_threshold =
        Except.ok (interAll [{"apple"}, {"apple", "bread"}])) ∧
    ((interAll [{"apple"}, {"apple", "bread"}]).card < min_confidence_threshold →
      reconcile [{"apple"}, {"apple", "bread"}] min_confidence_threshold =
        Except.ok (unionAll [{"apple"}, {"apple", "bread"}])) ∧
    (∀ x, (x ∈ interAll [{"apple"}, {"apple", "bread"}] ↔
            ∀ u ∈ ([{"apple"}, {"apple", "bread"}] : List (Finset String)), x ∈ u) ∧
          (x ∈ unionAll [{"apple"}, {"apple", "bread"}] ↔
            ∃ u ∈ ([{"apple"}, {"apple", "bread"}] : List (Finset String)), x ∈ u))) :=
  ⟨by decide, reconcile_threshold_spec [{"apple"}, {"apple", "bread"}] (by decide)⟩

/-- C2: reconciling zero input sets yields the error (the
`ReconciliationError` of the spec) for every threshold value, and in
particular never an (empty or other) result set. -/
theorem reconcile_nil_error (t : Nat) :
    reconcile [] t = Except.error "No used-answers sources could be parsed." ∧
    ∀ r : Finset String, reconcile [] t ≠ Except.ok r := by
  refine ⟨rfl, ?_⟩
  intro r h
  simp [reconcile] at h

theorem reconcile_nil_error_witness :
    reconcile [] 7 = Except.error "No used-answers sources could be parsed." ∧
    ∀ r : Finset String, reconcile [] 7 ≠ Except.ok r :=
  reconcile_nil_error 7

/-- C3: reconciling a single word set returns it unchanged, for every
threshold and regardless of which branch of the size heuristic fires. -/
theorem reconcile_singleton (S : Finset String) (t : Nat) :
    reconcile [S] t = Except.ok S := by
  simp only [reconcile, List.isEmpty_cons, Bool.false_eq_true, if_false,
    List.length_singleton, List.headI]
  have h1 : ¬ (1 < 1) := by decide
  simp only [h1, if_false]
  have hu : unionAll [S] = S := by
    simp [unionAll]
  by_cases h : S.card < t <;> simp [h, hu]

/-- C4: `normalize_words` admits a token into its output iff the token,
after stripping surrounding whitespace and lowercasing, consists of
exactly five ASCII lowercase letters; every output element is such a
five-letter word; and an input with no valid token yields the empty
set.  (Totality and deduplication are inherent: the function is a total
Lean function into `Finset String`.) -/
theorem normalize_words_spec (ws : List String) :
    (∀ s, s ∈ normalize_words ws ↔ ∃ w ∈ ws, normTok w = s ∧ w5Match s = true) ∧
    (∀ s ∈ normalize_words ws, s.data.length = 5 ∧ ∀ c ∈ s.data, isLowerAlpha c = true) ∧
    ((∀ w ∈ ws, w5Match (normTok w) = false) → normalize_words ws = ∅) := by
  refine ⟨fun s => mem_normalize_words, ?_, ?_⟩
  · intro s hs
    rcases mem_normalize_words.mp hs with ⟨w, _, _, hm⟩
    simp only [w5Match, Bool.and_eq_true, beq_iff_eq, List.all_eq_true] at hm
    exact ⟨hm.1, hm.2⟩
  · intro hall
    apply Finset.eq_empty_iff_forall_not_mem.mpr
    intro s hs
    rcases mem_normalize_words.mp hs with ⟨w, hw, rfl, hm⟩
    rw [hall w hw] at hm
    exact Bool.false_ne_true hm

theorem normalize_words_spec_witness :
    "apple" ∈ normalize_words ["  APPLE ", "no"] :=
  ((normalize_words_spec ["  APPLE ", "no"]).1 "apple").mpr
    ⟨"  APPLE ", by decide, by decide, by decide⟩

theorem toNat_ofNat_of_lt {n : Nat} (h : n < 55296) : (Char.ofNat n).toNat = n := by
  have hv : n.isValidChar := Or.inl h
  rw [Char.ofNat, dif_pos hv]
  simp [Char.ofNatAux, Char.toNat, UInt32.toNat]

theorem isLowerAlpha_iff {c : Char} :
    isLowerAlpha c = true ↔ 97 ≤ c.toNat ∧ c.toNat ≤ 122 := by
  simp [isLowerAlpha]

theorem isUpperAlpha_iff {c : Char} :
    isUpperAlpha c = true ↔ 65 ≤ c.toNat ∧ c.toNat ≤ 90 := by
  simp [isUpperAlpha]

theorem toLower_toNat_of_upper {c : Char} (h : isUpperAlpha c = true) :
    (Char.toLower c).toNat = c.toNat + 32 := by
  rcases isUpperAlpha_iff.mp h with ⟨h1, h2⟩
  have hb : c.toNat ≥ 65 ∧ c.toNat ≤ 90 := ⟨h1, h2⟩
  simp only [Char.toLower]
  rw [if_pos hb]
  exact toNat_ofNat_of_lt (by omega)

theorem toLower_eq_self_of_not_upper {c : Char} (h : isUpperAlpha c = false) :
    Char.toLower c = c := by
  have hb : ¬ (c.toNat ≥ 65 ∧ c.toNat ≤ 90) := by
    simp only [isUpperAlpha, Bool.and_eq_false_iff, decide_eq_false_iff_not] at h
    omega
  simp only [Char.toLower]
  rw [if_neg hb]

theorem not_upper_of_lower {c : Char} (h : isLowerAlpha c = true) :
    isUpperAlpha c = false := by
  rcases isLowerAlpha_iff.mp h with ⟨h1, _⟩
  simp only [isUpperAlpha, Bool.and_eq_false_iff, decide_eq_false_iff_not]
  omega

theorem toLower_eq_self_of_lower {c : Char} (h : isLowerAlpha c = true) :
    Char.toLower c = c :=
  toLower_eq_self_of_not_upper (not_upper_of_lower h)

theorem isLowerAlpha_toLower_of_alpha {c : Char} (h : isAsciiAlpha c = true) :
    isLowerAlpha (Char.toLower c) = true := by
  have h' : isUpperAlpha c = true ∨ isLowerAlpha c = true := by
    simpa [isAsciiAlpha, Bool.or_eq_true] using h
  rcases h' with hu | hl
  · rcases isUpperAlpha_iff.mp hu with ⟨h1, h2⟩
    apply isLowerAlpha_iff.mpr
    rw [toLower_toNat_of_upper hu]
    omega
  · rw [toLower_eq_self_of_lower hl]
    exact hl

theorem isSpaceChar_eq_false_of_alpha {c : Char} (h : isAsciiAlpha c = true) :
    isSpaceChar c = false := by
  have h' : isUpperAlpha c = true ∨ isLowerAlpha c = true := by
    simpa [isAsciiAlpha, Bool.or_eq_true] using h
  have hb : 65 ≤ c.toNat := by
    rcases h' with hu | hl
    · exact (isUpperAlpha_iff.mp hu).1
    · have := (isLowerAlpha_iff.mp hl).1; omega
  simp only [isSpaceChar, Bool.or_eq_false_iff, Bool.and_eq_false_iff, beq_eq_false_iff_ne,
    ne_eq, decide_eq_false_iff_not, Nat.not_le]
  omega

theorem lower_is_alpha {c : Char} (h : isLowerAlpha c = true) :
    isAsciiAlpha c = true := by
  simp [isAsciiAlpha, Bool.or_eq_true, h]

theorem dropWhile_eq_self_of_none (p : Char → Bool) (l : List Char)
    (h : ∀ c ∈ l, p c = false) : l.dropWhile p = l := by
  cases l with
  | nil => rfl
  | cons a l =>
    have ha : p a = false := h a (List.mem_cons_self a l)
    simp [List.dropWhile_cons, ha]

theorem pyStrip_eq_self {s : String} (h : ∀ c ∈ s.data, isSpaceChar c = false) :
    pyStrip s = s := by
  unfold pyStrip
  rw [dropWhile_eq_self_of_none _ _ h]
  rw [dropWhile_eq_self_of_none _ _ (fun c hc => h c (List.mem_reverse.mp hc))]
  rw [List.reverse_reverse]

theorem pyLower_eq_self_of_lower {s : String}
    (h : ∀ c ∈ s.data, isLowerAlpha c = true) : pyLower s = s := by
  unfold pyLower
  rw [show s.data.map Char.toLower = s.data.map id from
    List.map_congr_left (fun c hc => toLower_eq_self_of_lower (h c hc)), List.map_id]

theorem w5Match_iff {s : String} :
    w5Match s = true ↔ s.data.length = 5 ∧ ∀ c ∈ s.data, isLowerAlpha c = true := by
  simp [w5Match, List.all_eq_true]

theorem normTok_eq_self_of_w5 {s : String} (h : w5Match s = true) : normTok s = s := by
  have hl : ∀ c ∈ s.data, isLowerAlpha c = true := (w5Match_iff.mp h).2
  unfold normTok
  rw [pyStrip_eq_self (fun c hc => isSpaceChar_eq_false_of_alpha (lower_is_alpha (hl c hc)))]
  exact pyLower_eq_self_of_lower hl

/-- HTML page as seen through the external DOM capability: the flattened
per-element visible texts (`el.get_text(" ", strip=True)`) selected by
each source profile, plus the raw page text.  BeautifulSoup itself is an
external collaborator per the spec; only the selected texts it yields
matter to the extraction logic. -/
structure HtmlDoc where
  /-- Texts of the elements matched by `soup.select("li, p, td, strong, em, span")`,
  the TechRadar profile. -/
  textsMain : List String
  /-- Texts of the elements matched by `soup.select("li, p, td, strong, em, span, a")`,
  the WordFinder profile. -/
  textsWithAnchors : List String
  /-- Raw page text handed to the fallback scan. -/
  raw : String

/-- Python `normalize_words` as the parse functions apply it to an
already-built candidate set: `normalize_words` accepts any iterable, and
on a set argument its result depends only on membership, so it is the
image under `normTok` filtered by the five-letter rule. -/
def normalize_words_set (s : Finset String) : Finset String :=
  (s.image normTok).filter (fun w => w5Match w)

/-- Structural pass shared by both parse functions: lowercase each
selected element text and collect every `\b[a-z]{5}\b` match. -/
def structCandidates (texts : List String) : Finset String :=
  (texts.flatMap (fun t => find5lc (pyLower t))).toFinset

/-- src/parse.py `extract_words_from_html`: all `\b[a-zA-Z]{5}\b` matches
of the raw text (a set, deduplicated by `normalize_words`'s output
anyway), normalized. -/
def extract_words_from_html (html : String) : Finset String :=
  normalize_words (find5Tokens html)

/-- src/parse.py `parse_techradar`: structural pass over the TechRadar
selector profile, whole-text fallback if it produced nothing, then a
final `normalize_words` over the candidate set. -/
def parse_techradar (doc : HtmlDoc) : Finset String :=
  let c0 := structCandidates doc.textsMain
  let candidates := if c0 = ∅ then extract_words_from_html doc.raw else c0
  normalize_words_set candidates

/-- src/parse.py `parse_wordfinder`: same shape as `parse_techradar`
with the WordFinder selector profile (which also selects `a`). -/
def parse_wordfinder (doc : HtmlDoc) : Finset String :=
  let c0 := structCandidates doc.textsWithAnchors
  let candidates := if c0 = ∅ then extract_words_from_html doc.raw else c0
  normalize_words_set candidates

/-- Split a character list at newline characters (the ASCII fragment of
Python `str.splitlines` relevant to the fetched word list; the
subsequent per-line `strip` removes any `\r`). -/
def splitNl : List Char → List (List Char)
  | [] => [[]]
  | c :: cs =>
    let rest := splitNl cs
    if c = '\n' then [] :: rest
    else
      match rest with
      | l :: ls => (c :: l) :: ls
      | [] => [[c]]

/-- Python `[line.strip() for line in text.splitlines() if line.strip()]`
from `fetch_allowed`: strip each line and keep the nonempty ones. -/
def fetch_allowed_lines (text : String) : List String :=
  (((splitNl text.data).map String.mk).map pyStrip).filter (fun l => l ≠ "")

/-- src/fetch_wordle_data.py `fetch_allowed`, applied to the body of the
first allowed-list URL that succeeds: normalize the stripped nonempty
lines. -/
def fetch_allowed_from (text : String) : Finset String :=
  normalize_words (fetch_allowed_lines text)

theorem find5Tokens_shape {t s : String} (h : t ∈ find5Tokens s) :
    t.data.length = 5 ∧ ∀ c ∈ t.data, isAsciiAlpha c = true := by
  simp only [find5Tokens, List.mem_map, List.mem_filter] at h
  rcases h with ⟨r, ⟨_, hr5⟩, rfl⟩
  simpa [run5, List.all_eq_true] using hr5

theorem normTok_eq_pyLower_of_alpha {t : String}
    (ha : ∀ c ∈ t.data, isAsciiAlpha c = true) : normTok t = pyLower t := by
  unfold normTok
  rw [pyStrip_eq_self (fun c hc => isSpaceChar_eq_false_of_alpha (ha c hc))]

theorem w5_pyLower_of_alpha5 {t : String} (h5 : t.data.length = 5)
    (ha : ∀ c ∈ t.data, isAsciiAlpha c = true) : w5Match (pyLower t) = true := by
  apply w5Match_iff.mpr
  refine ⟨by simp [pyLower, h5], ?_⟩
  intro c hc
  simp only [pyLower, List.mem_map] at hc
  rcases hc with ⟨d, hd, rfl⟩
  exact isLowerAlpha_toLower_of_alpha (ha d hd)

theorem mem_extract_of_find5 {raw t : String} (ht : t ∈ find5Tokens raw) :
    pyLower t ∈ extract_words_from_html raw := by
  obtain ⟨h5, ha⟩ := find5Tokens_shape ht
  exact mem_normalize_words.mpr
    ⟨t, ht, normTok_eq_pyLower_of_alpha ha, w5_pyLower_of_alpha5 h5 ha⟩

theorem normalize_words_valid {ws : List String} :
    ∀ w ∈ normalize_words ws, w5Match w = true := by
  intro w hw
  exact (mem_normalize_words.mp hw).choose_spec.2.2

theorem mem_normalize_words_set {x : String} {s : Finset String} :
    x ∈ normalize_words_set s ↔ ∃ w ∈ s, normTok w = x ∧ w5Match x = true := by
  simp only [normalize_words_set, Finset.mem_filter, Finset.mem_image]
  constructor
  · rintro ⟨⟨w, hw, rfl⟩, hm⟩
    exact ⟨w, hw, rfl, hm⟩
  · rintro ⟨w, hw, rfl, hm⟩
    exact ⟨⟨w, hw, rfl⟩, hm⟩

theorem normalize_set_self {S : Finset String}
    (h : ∀ w ∈ S, w5Match w = true) : normalize_words_set S = S := by
  ext s
  rw [mem_normalize_words_set]
  constructor
  · rintro ⟨w, hw, rfl, _⟩
    rw [normTok_eq_self_of_w5 (h w hw)]
    exact hw
  · intro hs
    exact ⟨s, hs, normTok_eq_self_of_w5 (h s hs), h s hs⟩

/-- C5: each source-specific extractor runs the whole-text fallback scan
iff its structural pass yields zero candidates, and when it does, every
five-letter token of the raw text is recovered (lowercased) in the
extractor's output. -/
theorem extractor_fallback_spec (doc : HtmlDoc) :
    (structCandidates doc.textsMain = ∅ →
      parse_techradar doc = normalize_words_set (extract_words_from_html doc.raw) ∧
      ∀ t ∈ find5Tokens doc.raw, pyLower t ∈ parse_techradar doc) ∧
    (structCandidates doc.textsMain ≠ ∅ →
      parse_techradar doc = normalize_words_set (structCandidates doc.textsMain)) ∧
    (structCandidates doc.textsWithAnchors = ∅ →
      parse_wordfinder doc = normalize_words_set (extract_words_from_html doc.raw) ∧
      ∀ t ∈ find5Tokens doc.raw, pyLower t ∈ parse_wordfinder doc) ∧
    (structCandidates doc.textsWithAnchors ≠ ∅ →
      parse_wordfinder doc = normalize_words_set (structCandidates doc.textsWithAnchors)) := by
  refine ⟨fun he => ⟨?_, ?_⟩, fun hne => ?_, fun he => ⟨?_, ?_⟩, fun hne => ?_⟩
  · simp [parse_techradar, he]
  · intro t ht
    have hmem : pyLower t ∈ extract_words_from_html doc.raw := mem_extract_of_find5 ht
    have hp : parse_techradar doc = extract_words_from_html doc.raw := by
      have h1 : parse_techradar doc = normalize_words_set (extract_words_from_html doc.raw) := by
        simp [parse_techradar, he]
      rw [h1]
      exact normalize_set_self (fun w hw => normalize_words_valid w hw)
    rw [hp]
    exact hmem
  · simp [parse_techradar, hne]
  · simp [parse_wordfinder, he]
  · intro t ht
    have hmem : pyLower t ∈ extract_words_from_html doc.raw := mem_extract_of_find5 ht
    have hp : parse_wordfinder doc = extract_words_from_html doc.raw := by
      have h1 : parse_wordfinder doc = normalize_words_set (extract_words_from_html doc.raw) := by
        simp [parse_wordfinder, he]
      rw [h1]
      exact normalize_set_self (fun w hw => normalize_words_valid w hw)
    rw [hp]
    exact hmem
  · simp [parse_wordfinder, hne]

theorem extractor_fallback_spec_witness :
    pyLower "crane" ∈ parse_techradar (HtmlDoc.mk ["123"] ["123"] "crane!") :=
  ((extractor_fallback_spec (HtmlDoc.mk ["123"] ["123"] "crane!")).1 (by decide)).2
    "crane" (by decide)

/-- C7: every string in a named downstream word set has passed the
normalizer: the outputs of both parsers contain only valid five-letter
lowercase words and are fixed points of `normalize_words`; the allowed
set is built by applying `normalize_words` to the fetched lines (and so
contains only valid words); and the reconciler only passes through words
from its (validated) inputs. -/
theorem downstream_validation_spec :
    (∀ doc : HtmlDoc, ∀ w ∈ parse_techradar doc, w5Match w = true) ∧
    (∀ doc : HtmlDoc, ∀ w ∈ parse_wordfinder doc, w5Match w = true) ∧
    (∀ doc : HtmlDoc, normalize_words_set (parse_techradar doc) = parse_techradar doc) ∧
    (∀ doc : HtmlDoc, normalize_words_set (parse_wordfinder doc) = parse_wordfinder doc) ∧
    (∀ text : String, fetch_allowed_from text = normalize_words (fetch_allowed_lines text) ∧
      ∀ w ∈ fetch_allowed_from text, w5Match w = true) ∧
    (∀ (sets : List (Finset String)) (t : Nat) (r : Finset String),
      (∀ S ∈ sets, ∀ w ∈ S, w5Match w = true) →
      reconcile sets t = Except.ok r → ∀ w ∈ r, w5Match w = true) := by
  have hset : ∀ s : Finset String, ∀ w ∈ normalize_words_set s, w5Match w = true := by
    intro s w hw
    exact (mem_normalize_words_set.mp hw).choose_spec.2.2
  have htr : ∀ doc : HtmlDoc, ∀ w ∈ parse_techradar doc, w5Match w = true := by
    intro doc w hw
    exact hset _ w hw
  have hwf : ∀ doc : HtmlDoc, ∀ w ∈ parse_wordfinder doc, w5Match w = true := by
    intro doc w hw
    exact hset _ w hw
  refine ⟨htr, hwf, ?_, ?_, ?_, ?_⟩
  · intro doc
    exact normalize_set_self (htr doc)
  · intro doc
    exact normalize_set_self (hwf doc)
  · intro text
    exact ⟨rfl, fun w hw => normalize_words_valid w hw⟩
  · intro sets t r hval hrec w hw
    match sets with
    | [] => simp [reconcile] at hrec
    | s :: rest =>
      have hne : (s :: rest).isEmpty = false := rfl
      rw [reconcile, hne] at hrec
      simp only [Bool.false_eq_true, if_false] at hrec
      by_cases hc :
          (if 1 < (s :: rest).length then interAll (s :: rest) else (s :: rest).headI).card < t
      · rw [if_pos hc] at hrec
        obtain rfl : unionAll (s :: rest) = r := by
          injection hrec
        obtain ⟨S, hS, hwS⟩ := (mem_unionAll _ w).mp hw
        exact hval S hS w hwS
      · rw [if_neg hc] at hrec
        obtain rfl :
            (if 1 < (s :: rest).length then interAll (s :: rest) else (s :: rest).headI) = r := by
          injection hrec
        have hws : w ∈ s := by
          by_cases h1 : 1 < (s :: rest).length
          · rw [if_pos h1] at hw
            exact ((mem_interAll rest s w).mp hw).1
          · rw [if_neg h1] at hw
            exact hw
        exact hval s (List.mem_cons_self s rest) w hws

theorem downstream_validation_spec_witness :
    w5Match "crane" = true :=
  downstream_validation_spec.1 (HtmlDoc.mk [" CRANE is here "] [] "")
    "crane" (by decide)

/-- JSON payload written for each artifact, in insertion order of the
Python dict literal: generated, count, words. -/
structure JsonArtifact where
  generated : String
  count : Nat
  words : List String
deriving DecidableEq

/-- All artifacts produced by one run. -/
structure RunArtifacts where
  allowedJson : JsonArtifact
  usedJson : JsonArtifact
  allowedNotUsedJson : JsonArtifact
  csvRows : List (List String)
deriving DecidableEq

/-- Python `sorted(word_set)`: ascending lexicographic enumeration. -/
def sortWords (s : Finset String) : List String :=
  s.sort (fun a b => a ≤ b)

/-- Artifact-building tail of src/fetch_wordle_data.py `main` (lines
86-106): cross-filter `used` against `allowed` (`used = used & allowed`),
then build the three JSON payloads and the CSV rows (header plus one row
per word of `allowed | used`, in sorted order, with
`str(word in used_set).lower()` as the flag).  The two input sets are
given as arbitrary enumerations; the result depends only on their
membership. -/
def build_artifacts (allowedL usedL : List String) (today : String) : RunArtifacts :=
  let allowed : Finset String := allowedL.toFinset
  let used : Finset String := usedL.toFinset ∩ allowed
  let allowed_not_used : List String := sortWords (allowed \ used)
  let all_words : List String := sortWords (allowed ∪ used)
  { allowedJson := { generated := today, count := allowed.card, words := sortWords allowed }
    usedJson := { generated := today, count := used.card, words := sortWords used }
    allowedNotUsedJson :=
      { generated := today, count := allowed_not_used.length, words := allowed_not_used }
    csvRows := ["word", "is_used", "generated"] ::
      all_words.map (fun w => [w, if w ∈ used then "true" else "false", today]) }

/-- Rendering of the words array by `json.dump(..., indent=2)`:
bracketed, one quoted word per line at four-space indent (none of the
words needs JSON escaping, being five lowercase letters). -/
def renderWords : List String → String
  | [] => "[]"
  | w :: ws => "[\n    \"" ++ String.intercalate "\",\n    \"" (w :: ws) ++ "\"\n  ]"

/-- Byte content produced by `write_json` for a payload:
`json.dump(payload, f, ensure_ascii=False, indent=2)` with the fixed
dict key order generated, count, words. -/
def renderJson (a : JsonArtifact) : String :=
  "\x7b\n  \"generated\": \"" ++ a.generated ++ "\",\n  \"count\": " ++ toString a.count ++
    ",\n  \"words\": " ++ renderWords a.words ++ "\n\x7d"

/-- Byte content produced by `csv.writer` for the rows: comma-joined
fields, CRLF row terminator (the writer's default), no quoting needed
for these fields. -/
def renderCsv (rows : List (List String)) : String :=
  String.join (rows.map (fun r => String.intercalate "," r ++ "\r\n"))

theorem usedJson_words_eq (allowedL usedL : List String) (today : String) :
    (build_artifacts allowedL usedL today).usedJson.words =
      sortWords (usedL.toFinset ∩ allowedL.toFinset) := rfl

theorem allowedJson_words_eq (allowedL usedL : List String) (today : String) :
    (build_artifacts allowedL usedL today).allowedJson.words =
      sortWords allowedL.toFinset := rfl

theorem csvRows_tail_eq (allowedL usedL : List String) (today : String) :
    (build_artifacts allowedL usedL today).csvRows.tail =
      (sortWords (allowedL.toFinset ∪ usedL.toFinset ∩ allowedL.toFinset)).map
        (fun w => [w, if w ∈ usedL.toFinset ∩ allowedL.toFinset then "true" else "false",
          today]) := rfl

/-- C6: the used set written to the artifacts is the intersection of the
reconciled used set with the allowed set: used.json's words are exactly
`used ∩ allowed`, every word of used.json also appears in allowed.json,
and a CSV row is flagged `true` exactly for words of `used ∩ allowed`. -/
theorem used_subset_allowed_spec (allowedL usedL : List String) (today : String) :
    (build_artifacts allowedL usedL today).usedJson.words.toFinset =
      usedL.toFinset ∩ allowedL.toFinset ∧
    (∀ w ∈ (build_artifacts allowedL usedL today).usedJson.words,
      w ∈ (build_artifacts allowedL usedL today).allowedJson.words) ∧
    (∀ w b g, [w, b, g] ∈ (build_artifacts allowedL usedL today).csvRows.tail →
      (b = "true" ↔ w ∈ usedL.toFinset ∩ allowedL.toFinset)) := by
  refine ⟨?_, ?_, ?_⟩
  · rw [usedJson_words_eq]
    exact Finset.sort_toFinset _ _
  · intro w hw
    rw [usedJson_words_eq, sortWords, Finset.mem_sort] at hw
    rw [allowedJson_words_eq, sortWords, Finset.mem_sort]
    exact Finset.mem_of_mem_inter_right hw
  · intro w b g hrow
    rw [csvRows_tail_eq] at hrow
    obtain ⟨w', _, heq⟩ := List.mem_map.mp hrow
    injection heq with h1 h2
    injection h2 with h2 h3
    subst h1
    by_cases hmem : w' ∈ usedL.toFinset ∩ allowedL.toFinset
    · rw [if_pos hmem] at h2
      exact ⟨fun _ => hmem, fun _ => h2.symm⟩
    · rw [if_neg hmem] at h2
      refine ⟨fun hb => ?_, fun hm => absurd hm hmem⟩
      rw [← h2] at hb
      exact absurd hb (by decide)

theorem used_subset_allowed_spec_witness :
    "apple" ∈ (build_artifacts ["apple", "zesty"] ["apple", "crane"] "2025-10-12").usedJson.words →
    "apple" ∈ (build_artifacts ["apple", "zesty"] ["apple", "crane"] "2025-10-12").allowedJson.words :=
  (used_subset_allowed_spec ["apple", "zesty"] ["apple", "crane"] "2025-10-12").2.1 "apple"

/-- C8: words.csv consists of the header row word,is_used,generated
followed by exactly one row per word of `allowed ∪ used`, in ascending
order by word, each row carrying the literal flag true/false according
to the word's presence in used.json's words, and the generation date. -/
theorem csv_structure_spec (allowedL usedL : List String) (today : String) :
    (build_artifacts allowedL usedL today).csvRows.head? =
      some ["word", "is_used", "generated"] ∧
    ((build_artifacts allowedL usedL today).csvRows.tail.map (fun r => r.getD 0 "")) =
      sortWords (allowedL.toFinset ∪ usedL.toFinset ∩ allowedL.toFinset) ∧
    (build_artifacts allowedL usedL today).csvRows.tail.length =
      (allowedL.toFinset ∪ usedL.toFinset ∩ allowedL.toFinset).card ∧
    List.Sorted (fun a b : String => a ≤ b)
      ((build_artifacts allowedL usedL today).csvRows.tail.map (fun r => r.getD 0 "")) ∧
    (∀ w b g, [w, b, g] ∈ (build_artifacts allowedL usedL today).csvRows.tail →
      g = today ∧
      (b = "true" ↔ w ∈ (build_artifacts allowedL usedL today).usedJson.words) ∧
      (b = "false" ↔ w ∉ (build_artifacts allowedL usedL today).usedJson.words)) := by
  have hmapfst :
      ((build_artifacts allowedL usedL today).csvRows.tail.map (fun r => r.getD 0 "")) =
        sortWords (allowedL.toFinset ∪ usedL.toFinset ∩ allowedL.toFinset) := by
    rw [csvRows_tail_eq, List.map_map]
    rw [show ((fun r : List String => r.getD 0 "") ∘
        fun w => [w, if w ∈ usedL.toFinset ∩ allowedL.toFinset then "true" else "false",
          today]) = id from rfl]
    exact List.map_id _
  refine ⟨rfl, hmapfst, ?_, ?_, ?_⟩
  · rw [csvRows_tail_eq, List.length_map, sortWords]
    exact Finset.length_sort _
  · rw [hmapfst, sortWords]
    exact Finset.sort_sorted _ _
  · intro w b g hrow
    rw [csvRows_tail_eq] at hrow
    obtain ⟨w', _, heq⟩ := List.mem_map.mp hrow
    injection heq with h1 h2
    injection h2 with h2 h3
    injection h3 with h3 h4
    subst h1
    have hmemiff : w' ∈ (build_artifacts allowedL usedL today).usedJson.words ↔
        w' ∈ usedL.toFinset ∩ allowedL.toFinset := by
      rw [usedJson_words_eq, sortWords, Finset.mem_sort]
    refine ⟨h3.symm, ?_, ?_⟩
    · rw [hmemiff]
      by_cases hmem : w' ∈ usedL.toFinset ∩ allowedL.toFinset
      · rw [if_pos hmem] at h2
        exact ⟨fun _ => hmem, fun _ => h2.symm⟩
      · rw [if_neg hmem] at h2
        refine ⟨fun hb => ?_, fun hm => absurd hm hmem⟩
        rw [← h2] at hb
        exact absurd hb (by decide)
    · rw [hmemiff]
      by_cases hmem : w' ∈ usedL.toFinset ∩ allowedL.toFinset
      · rw [if_pos hmem] at h2
        refine ⟨fun hb => ?_, fun hm => absurd hmem hm⟩
        rw [← h2] at hb
        exact absurd hb (by decide)
      · rw [if_neg hmem] at h2
        exact ⟨fun _ => hmem, fun _ => h2.symm⟩

theorem csv_structure_spec_witness :
    (build_artifacts ["apple", "crane"] ["crane"] "2025-10-12").csvRows.head? =
      some ["word", "is_used", "generated"] :=
  (csv_structure_spec ["apple", "crane"] ["crane"] "2025-10-12").1

/-- C9: artifact generation is deterministic: runs on inputs equal as
sets with the same date produce byte-identical JSON and CSV outputs,
with the fixed key order baked into the renderer, counts equal to the
length of the words arrays, and words sorted ascending. -/
theorem artifact_determinism_spec (aL aL' uL uL' : List String) (d : String)
    (ha : aL.toFinset = aL'.toFinset) (hu : uL.toFinset = uL'.toFinset) :
    (renderJson (build_artifacts aL uL d).allowedJson =
       renderJson (build_artifacts aL' uL' d).allowedJson ∧
     renderJson (build_artifacts aL uL d).usedJson =
       renderJson (build_artifacts aL' uL' d).usedJson ∧
     renderJson (build_artifacts aL uL d).allowedNotUsedJson =
       renderJson (build_artifacts aL' uL' d).allowedNotUsedJson ∧
     renderCsv (build_artifacts aL uL d).csvRows =
       renderCsv (build_artifacts aL' uL' d).csvRows) ∧
    ((build_artifacts aL uL d).allowedJson.count =
       (build_artifacts aL uL d).allowedJson.words.length ∧
     (build_artifacts aL uL d).usedJson.count =
       (build_artifacts aL uL d).usedJson.words.length ∧
     (build_artifacts aL uL d).allowedNotUsedJson.count =
       (build_artifacts aL uL d).allowedNotUsedJson.words.length) ∧
    (List.Sorted (fun a b : String => a ≤ b) (build_artifacts aL uL d).allowedJson.words ∧
     List.Sorted (fun a b : String => a ≤ b) (build_artifacts aL uL d).usedJson.words ∧
     List.Sorted (fun a b : String => a ≤ b)
       (build_artifacts aL uL d).allowedNotUsedJson.words) := by
  have hb : build_artifacts aL uL d = build_artifacts aL' uL' d := by
    unfold build_artifacts
    rw [ha, hu]
  refine ⟨⟨by rw [hb], by rw [hb], by rw [hb], by rw [hb]⟩, ⟨?_, ?_, ?_⟩, ?_, ?_, ?_⟩
  · rw [show (build_artifacts aL uL d).allowedJson.words = sortWords aL.toFinset from rfl,
      show (build_artifacts aL uL d).allowedJson.count = aL.toFinset.card from rfl, sortWords]
    exact (Finset.length_sort _).symm
  · rw [usedJson_words_eq,
      show (build_artifacts aL uL d).usedJson.count =
        (uL.toFinset ∩ aL.toFinset).card from rfl, sortWords]
    exact (Finset.length_sort _).symm
  · rfl
  · rw [allowedJson_words_eq, sortWords]
    exact Finset.sort_sorted _ _
  · rw [usedJson_words_eq, sortWords]
    exact Finset.sort_sorted _ _
  · rw [show (build_artifacts aL uL d).allowedNotUsedJson.words =
      sortWords (aL.toFinset \ (uL.toFinset ∩ aL.toFinset)) from rfl, sortWords]
    exact Finset.sort_sorted _ _

theorem artifact_determinism_spec_witness :
    (["bb", "aa"] : List String).toFinset = (["aa", "bb", "aa"] : List String).toFinset ∧
    renderCsv (build_artifacts ["bb", "aa"] ["aa"] "2025-01-01").csvRows =
      renderCsv (build_artifacts ["aa", "bb", "aa"] ["aa"] "2025-01-01").csvRows :=
  ⟨by decide,
    (artifact_determinism_spec ["bb", "aa"] ["aa", "bb", "aa"] ["aa"] ["aa"] "2025-01-01"
      (by decide) (by decide)).1.2.2.2⟩

/-- Filesystem operations on output paths, abstracted: a direct content
write to a path, or an atomic rename of one path onto another. -/
inductive FsOp where
  | writeFile (path : String)
  | rename (src dst : String)
deriving DecidableEq

/-- The data output directory of src/fetch_wordle_data.py. -/
def DATA_DIR : String := "data"

/-- The public mirror directory of src/fetch_wordle_data.py. -/
def PUBLIC_DIR : String := "public"

/-- src/fetch_wordle_data.py `write_json` (lines 61-65): write the
payload to `path + ".tmp"`, then `os.replace` the temporary onto the
final path. -/
def write_json_ops (path : String) : List FsOp :=
  [FsOp.writeFile (path ++ ".tmp"), FsOp.rename (path ++ ".tmp") path]

/-- src/fetch_wordle_data.py `mirror_to_public` (lines 73-78): open the
destination for writing and copy the source bytes directly; no
temporary file and no rename are involved. -/
def mirror_to_public_ops (fname : String) : List FsOp :=
  [FsOp.writeFile (PUBLIC_DIR ++ "/" ++ fname)]

/-- File operations performed on output locations by `main` (lines
89-106), in order: the three JSON artifacts through `write_json`,
words.csv through a plain `open(..., "w")`, and the three public
mirrors through `mirror_to_public`. -/
def main_fs_ops : List FsOp :=
  write_json_ops (DATA_DIR ++ "/allowed.json") ++
  write_json_ops (DATA_DIR ++ "/used.json") ++
  write_json_ops (DATA_DIR ++ "/allowed_not_used.json") ++
  [FsOp.writeFile (DATA_DIR ++ "/words.csv")] ++
  mirror_to_public_ops "allowed.json" ++
  mirror_to_public_ops "used.json" ++
  mirror_to_public_ops "allowed_not_used.json"

/-- Every persisted final output location of a run. -/
def finalArtifactPaths : List String :=
  [DATA_DIR ++ "/allowed.json", DATA_DIR ++ "/used.json",
   DATA_DIR ++ "/allowed_not_used.json", DATA_DIR ++ "/words.csv",
   PUBLIC_DIR ++ "/allowed.json", PUBLIC_DIR ++ "/used.json",
   PUBLIC_DIR ++ "/allowed_not_used.json"]

/-- The staged write-to-temporary-then-atomic-rename discipline over an
operation trace: no direct content write ever targets a final output
path, so content can land on a final path only through a rename. -/
def stagedOnly (ops : List FsOp) (finals : List String) : Bool :=
  ops.all fun op =>
    match op with
    | FsOp.writeFile p => !(finals.contains p)
    | FsOp.rename _ _ => true

/-- C10 counterexample: the public mirror of allowed.json is produced by
a direct content write to its final path (as is words.csv), so it is
false that every write to a persisted output location uses the staged
write-to-temporary-then-atomic-rename discipline. -/
theorem mirror_write_not_staged :
    FsOp.writeFile (PUBLIC_DIR ++ "/allowed.json") ∈ mirror_to_public_ops "allowed.json" ∧
    FsOp.writeFile (PUBLIC_DIR ++ "/allowed.json") ∈ main_fs_ops ∧
    (PUBLIC_DIR ++ "/allowed.json") ∈ finalArtifactPaths ∧
    FsOp.writeFile (DATA_DIR ++ "/words.csv") ∈ main_fs_ops ∧
    stagedOnly main_fs_ops finalArtifactPaths = false := by
  decide

/-- C10 amended: the three JSON artifacts in the data directory are
written with the staged write-to-temporary-then-atomic-rename
discipline, while words.csv and the three public-facing mirror copies
are written by direct content writes to their final paths. -/
theorem staged_writes_amended :
    stagedOnly (write_json_ops (DATA_DIR ++ "/allowed.json") ++
      write_json_ops (DATA_DIR ++ "/used.json") ++
      write_json_ops (DATA_DIR ++ "/allowed_not_used.json")) finalArtifactPaths = true ∧
    write_json_ops (DATA_DIR ++ "/allowed.json") =
      [FsOp.writeFile (DATA_DIR ++ "/allowed.json.tmp"),
       FsOp.rename (DATA_DIR ++ "/allowed.json.tmp") (DATA_DIR ++ "/allowed.json")] ∧
    write_json_ops (DATA_DIR ++ "/used.json") =
      [FsOp.writeFile (DATA_DIR ++ "/used.json.tmp"),
       FsOp.rename (DATA_DIR ++ "/used.json.tmp") (DATA_DIR ++ "/used.json")] ∧
    write_json_ops (DATA_DIR ++ "/allowed_not_used.json") =
      [FsOp.writeFile (DATA_DIR ++ "/allowed_not_used.json.tmp"),
       FsOp.rename (DATA_DIR ++ "/allowed_not_used.json.tmp")
         (DATA_DIR ++ "/allowed_not_used.json")] ∧
    main_fs_ops.filter (fun op =>
      match op with
      | FsOp.writeFile p => finalArtifactPaths.contains p
      | FsOp.rename _ _ => false) =
      [FsOp.writeFile (DATA_DIR ++ "/words.csv"),
       FsOp.writeFile (PUBLIC_DIR ++ "/allowed.json"),
       FsOp.writeFile (PUBLIC_DIR ++ "/used.json"),
       FsOp.writeFile (PUBLIC_DIR ++ "/allowed_not_used.json")] := by
  decide

end Wordle
